import Mathlib

/-!
# Verification of the grsync progress parser (`task.go`)

A shallow embedding of the streaming progress parser of the `grsync`
repository.  Go strings and byte slices are modelled as `List Char`
(every byte of interest is ASCII); Go `int`/`int64` are modelled as
`Int` with explicit clamping where the standard library specifies it
(`strconv.Atoi` returns the clamped bound together with the ignored
range error); Go `float64` arithmetic is modelled exactly over `ℚ`
(the quantities compared in the claims are far below the magnitudes
at which double rounding could move an answer across any of the
compared bounds, and the spec's own examples are stated as exact
decimals).

The regular-expression matcher wrapper (`newMatcher` / `Match` /
`Extract` / `ExtractAllStringSubmatch`, file `matcher.go`) is not part
of the sources; it is modelled from the spec as Go `regexp`
leftmost-first matching with greedy backtracking semantics over the
three concrete patterns that `task.go` contains.
-/

namespace Grsync

/-! Go string primitives -/

/-- Go `strings.Split(s, sep)` for a single-character separator: the chunks
between occurrences of `sep`, empties preserved, result never empty. -/
def splitOnChar (sep : Char) : List Char → List (List Char)
  | [] => [[]]
  | c :: t =>
    if c = sep then [] :: splitOnChar sep t
    else
      match splitOnChar sep t with
      | [] => [[c]]
      | h :: r => (c :: h) :: r

/-- Go `strings.Contains(hay, needle)`. -/
def containsSub (hay needle : List Char) : Bool :=
  needle.isPrefixOf hay ||
    match hay with
    | [] => false
    | _ :: t => containsSub t needle

/-- ASCII whitespace as recognised by `strings.TrimSpace`
(the inputs fed to it here contain no non-ASCII space characters). -/
def isGoSpace (c : Char) : Bool :=
  c = ' ' || (9 ≤ c.toNat && c.toNat ≤ 13)

/-- Go `strings.TrimSpace`. -/
def trimSpace (s : List Char) : List Char :=
  ((s.dropWhile isGoSpace).reverse.dropWhile isGoSpace).reverse

/-- Value of a run of decimal digits, most significant first. -/
def natOfDigits (l : List Char) : Nat :=
  l.foldl (fun a c => a * 10 + (c.toNat - '0'.toNat)) 0

def int64Max : Int := 9223372036854775807
def int64Min : Int := -9223372036854775808

/-- Out-of-range results of `strconv.ParseInt` are clamped to the
`int64` bounds (the accompanying range error is discarded by the code). -/
def clampInt64 (v : Int) : Int := max int64Min (min int64Max v)

/-- Go `strconv.Atoi` up to its error: `none` on a syntax error, otherwise
the (possibly range-clamped) value. -/
def goAtoiCore (s : List Char) : Option Int :=
  let sd : Int × List Char :=
    if s.head? = some '+' then (1, s.tail)
    else if s.head? = some '-' then (-1, s.tail)
    else (1, s)
  if sd.2 = [] then none
  else if sd.2.all Char.isDigit then some (clampInt64 (sd.1 * natOfDigits sd.2))
  else none

/-- Go `strconv.Atoi` with the error discarded, as the code does:
a syntax error yields `0`. -/
def goAtoi (s : List Char) : Int := (goAtoiCore s).getD 0

/-- Go `strconv.ParseFloat` up to its error, restricted to the plain decimal
forms (optional sign, digits, optional fraction) that occur in rsync
output; exotic accepted forms (exponents, hex floats, infinities) do not
arise here.  The value is kept exact, represented as a signed decimal
mantissa together with its power-of-ten denominator (`"21.90"` becomes
`(2190, 100)`): `none` on a syntax error. -/
def goParseFloatCore (s : List Char) : Option (Int × Nat) :=
  let sd : Int × List Char :=
    if s.head? = some '+' then (1, s.tail)
    else if s.head? = some '-' then (-1, s.tail)
    else (1, s)
  let intPart := sd.2.takeWhile Char.isDigit
  let rest := sd.2.dropWhile Char.isDigit
  match rest with
  | [] => if intPart = [] then none else some (sd.1 * natOfDigits intPart, 1)
  | '.' :: frac =>
    if frac.all Char.isDigit ∧ (intPart ≠ [] ∨ frac ≠ []) then
      some (sd.1 * (natOfDigits intPart * 10 ^ frac.length + natOfDigits frac),
        10 ^ frac.length)
    else none
  | _ => none

/-- The rational value of `strconv.ParseFloat` with the error discarded:
malformed text yields `0`. -/
def goParseFloat (s : List Char) : ℚ :=
  match goParseFloatCore s with
  | none => 0
  | some (m, d) => (m : ℚ) / (d : ℚ)

/-! Translation of `scanProgressLines` (task.go, lines 96–117)

The bufio split function.  The Go triple `(advance, token, err)` with a
never-set error is modelled as `(advance, token?)`; a `nil` token is
`none` (for `bufio.Scanner`, `none` with advance 0 means "request more
data", or termination when at EOF). -/

/-- Go `bytes.IndexAny(data, chars)`: index of the first byte drawn from a
character class, `none` when absent. -/
def indexAny (p : Char → Bool) : List Char → Option Nat
  | [] => none
  | c :: t => if p c then some 0 else (indexAny p t).map (· + 1)

/-- The delimiter class `"\r\n"` of the `IndexAny` call. -/
def isDelim (c : Char) : Bool := c = '\r' || c = '\n'

def scanProgressLines (data : List Char) (atEOF : Bool) : Nat × Option (List Char) :=
  if atEOF ∧ data = [] then (0, none)
  else
    match indexAny isDelim data with
    | some i =>
      if data.getD i ' ' = '\n' then
        (i + 1, some (data.take i))
      else
        ((if i + 1 < data.length ∧ data.getD (i + 1) ' ' = '\n' then i + 2 else i + 1),
          some (data.take i))
    | none => if atEOF then (data.length, some data) else (0, none)

/-! Translation of `getTaskProgress` (task.go, lines 168–185) -/

def getTaskProgress (remTotalString : List Char) : Int × Int :=
  let info := splitOnChar '/' remTotalString
  if info.length < 2 then (0, 0)
  else (goAtoi (info.getD 0 []), goAtoi (info.getD 1 []))

/-! Translation of `getTaskSpeed` (task.go, lines 187–193) -/

def getTaskSpeed (data : List (List (List Char))) : List Char :=
  match data with
  | [] => []
  | row :: _ =>
    match row with
    | [] => []
    | x :: _ => x

/-! Translation of `getTaskTransfered` (task.go, lines 195–237) -/

/-- The unit list, in the order the loop tries it. -/
def unitsList : List (List Char) :=
  ["KB".toList, "K".toList, "MB".toList, "M".toList,
   "GB".toList, "G".toList, "TB".toList, "T".toList]

/-- The first unit of `unitsList` that is a suffix of the size token. -/
def findUnit (tok : List Char) : Option (List Char) :=
  unitsList.find? (fun u => u.isSuffixOf tok)

/-- The power-of-1024 multiplier of the `switch` statement (`1` for the
default branch, i.e. no recognised unit). -/
def unitScale (unit : List Char) : Nat :=
  if unit = "KB".toList ∨ unit = "K".toList then 1024
  else if unit = "MB".toList ∨ unit = "M".toList then 1024 * 1024
  else if unit = "GB".toList ∨ unit = "G".toList then 1024 * 1024 * 1024
  else if unit = "TB".toList ∨ unit = "T".toList then 1024 * 1024 * 1024 * 1024
  else 1

/-- The unit the loop finds for the first whitespace token (empty when
none matches). -/
def transferedUnit (transfered : List Char) : List Char :=
  (findUnit ((splitOnChar ' ' transfered).getD 0 [])).getD []

/-- The `numberStr` value of `getTaskTransfered` just before parsing:
first token, matched unit suffix stripped, commas removed, trimmed. -/
def transferedNumericText (transfered : List Char) : List Char :=
  let tok := (splitOnChar ' ' transfered).getD 0 []
  let numberStr :=
    match findUnit tok with
    | some u => tok.take (tok.length - u.length)
    | none => tok
  trimSpace (numberStr.filter (fun c => c ≠ ','))

/-- The `number` float of `getTaskTransfered` as an exact
mantissa/denominator pair (`(0, 1)` when parsing fails, as the code
discards the parse error leaving `number` zero). -/
def transferedMantissa (transfered : List Char) : Int × Nat :=
  (goParseFloatCore (transferedNumericText transfered)).getD (0, 1)

/-- Translation of `getTaskTransfered`.  With `number = m / d` exactly (`d` a positive
power of ten), Go's `int64(number * scale)` — an exact float product at
these magnitudes, converted by truncation toward zero — is the
truncated integer division `(m * scale).tdiv d`. -/
def getTaskTransfered (transfered : List Char) : Int × Int :=
  let info := splitOnChar ' ' transfered
  if info.length < 2 then (0, 0)
  else
    let md := transferedMantissa transfered
    ((md.1 * (unitScale (transferedUnit transfered) : Int)).tdiv (md.2 : Int),
     goAtoi (info.getD (info.length - 1) []))

/-! The regular-expression matcher

Modelled from the spec: the matcher wrapper (`newMatcher`, `Match`,
`Extract`, `ExtractAllStringSubmatch` from the repository's
`matcher.go`) is not among the sources; per the spec the three
extractors are "independent ... regular-expression-based extractors",
so the wrapper is modelled as Go `regexp` matching (leftmost-first,
greedy, with `.` matching any character except newline, `\d` the ASCII
digits and `\S` the non-whitespace characters), `Extract` returning the
first capture group of the leftmost match and `ExtractAllStringSubmatch`
the submatch rows of successive non-overlapping matches.  Only the
constructs appearing in the three patterns of `task.go` are embedded. -/

/-- Single-character regex atoms: a literal, `.`, `\d`, `\S`. -/
inductive RAtom
  | lit (c : Char)
  | adot
  | ddigit
  | nspace
deriving DecidableEq

def RAtom.matchesChar : RAtom → Char → Bool
  | .lit c, x => x = c
  | .adot, x => x ≠ '\n'
  | .ddigit, x => '0' ≤ x && x ≤ '9'
  | .nspace, x => !(x = ' ' || x = '\t' || x = '\n' || x = '\x0C' || x = '\r')

/-- Regexes over the constructs of the three patterns (one capture
group per pattern). -/
inductive Regex
  | eps
  | atom (a : RAtom)
  | seq (r1 r2 : Regex)
  | star (r : Regex)
  | group (r : Regex)

/-- Backtracking matcher in continuation-passing style, implementing the
leftmost-first greedy semantics of a backtracking engine (which Go's
`regexp` package reproduces).  The result carries the unconsumed suffix
together with the text consumed by the capture group, if any.  `fuel`
bounds the call depth; every use supplies enough for the fixed patterns
of `task.go` (whose starred subexpressions all consume at least one
character per iteration). -/
def mrun : Nat → Regex → List Char →
    (List Char → Option (List Char × Option (List Char))) →
    Option (List Char × Option (List Char))
  | 0, _, _, _ => none
  | _ + 1, .eps, s, k => k s
  | _ + 1, .atom a, s, k =>
    match s with
    | [] => none
    | c :: t => if a.matchesChar c then k t else none
  | fuel + 1, .seq r1 r2, s, k => mrun fuel r1 s (fun s1 => mrun fuel r2 s1 k)
  | fuel + 1, .star r, s, k =>
    match mrun fuel r s (fun s1 => mrun fuel (.star r) s1 k) with
    | some res => some res
    | none => k s
  | fuel + 1, .group r, s, k =>
    mrun fuel r s (fun s1 =>
      (k s1).map (fun res => (res.1, some (s.take (s.length - s1.length)))))

/-- Call-depth budget amply covering the three fixed patterns. -/
def mfuel (s : List Char) : Nat := 64 * (s.length + 2)

/-- The leftmost match of `r` in `s`: the suffix of `s` at which the
match starts, the rest after the match, and the capture. -/
def rfindList (r : Regex) : List Char → Option (List Char × List Char × Option (List Char))
  | [] =>
    (mrun (mfuel []) r [] (fun rest => some (rest, none))).map
      (fun p => ([], p.1, p.2))
  | c :: t =>
    match mrun (mfuel (c :: t)) r (c :: t) (fun rest => some (rest, none)) with
    | some (rest, cap) => some (c :: t, rest, cap)
    | none => rfindList r t

/-- Model of `matcher.Match`: does the pattern match anywhere in the line? -/
def regexMatch (r : Regex) (s : List Char) : Bool := (rfindList r s).isSome

/-- Model of `matcher.Extract`: the first capture group of the leftmost match
(empty when there is no match). -/
def regexExtract (r : Regex) (s : List Char) : List Char :=
  match rfindList r s with
  | some (_, _, some cap) => cap
  | _ => []

/-- Model of `matcher.ExtractAllStringSubmatch(s, n)`: rows
`[full match, capture]` of up to `n` successive non-overlapping
leftmost matches. -/
def regexExtractAllAux (r : Regex) : Nat → List Char → List (List (List Char))
  | 0, _ => []
  | n + 1, s =>
    match rfindList r s with
    | none => []
    | some (suff, rest, cap) =>
      (suff.take (suff.length - rest.length) :: [cap.getD []]) ::
        regexExtractAllAux r n rest

def regexExtractAll (r : Regex) (s : List Char) (n : Nat) : List (List (List Char)) :=
  regexExtractAllAux r n s

/-- Plus as a backtracking engine treats it: `r` then `r*`. -/
def rplus (r : Regex) : Regex := .seq r (.star r)

/-- A sequence of literal atoms. -/
def rstr (s : List Char) : Regex := s.foldr (fun c r => .seq (.atom (.lit c)) r) .eps

/-- The counter pattern of task.go line 125: `\(.+-chk=(\d+.\d+)`. -/
def progressRegex : Regex :=
  .seq (.atom (.lit '('))
    (.seq (rplus (.atom .adot))
      (.seq (rstr "-chk=".toList)
        (.group (.seq (rplus (.atom .ddigit))
          (.seq (.atom .adot) (rplus (.atom .ddigit)))))))

/-- The speed pattern of task.go line 126: `(\d+\.\d+.{2}\/s)`. -/
def speedRegex : Regex :=
  .group (.seq (rplus (.atom .ddigit))
    (.seq (.atom (.lit '.'))
      (.seq (rplus (.atom .ddigit))
        (.seq (.atom .adot)
          (.seq (.atom .adot)
            (.seq (.atom (.lit '/')) (.atom (.lit 's'))))))))

/-- The transferred pattern of task.go line 127: `(\S+.*)%`. -/
def transferedRegex : Regex :=
  .seq (.group (.seq (rplus (.atom .nspace)) (.star (.atom .adot))))
    (.atom (.lit '%'))

def progressMatch (s : List Char) : Bool := regexMatch progressRegex s
def progressExtract (s : List Char) : List Char := regexExtract progressRegex s
def speedMatch (s : List Char) : Bool := regexMatch speedRegex s
def speedExtractAll (s : List Char) (n : Nat) : List (List (List Char)) :=
  regexExtractAll speedRegex s n
def transferedMatch (s : List Char) : Bool := regexMatch transferedRegex s
def transferedExtract (s : List Char) : List Char := regexExtract transferedRegex s

/-! Translation of `isFilename` (task.go, lines 256–299) -/

def verboseList : List (List Char) :=
  ["building file list ".toList, "sending ".toList, "created ".toList,
   "done".toList, "total ".toList, "total: ".toList, "client ".toList,
   "server ".toList, "to consider".toList, "to-chk=".toList, "to-check=".toList]

def isFilename (str : List Char) : Bool :=
  if str = [] then false
  else if "      ".toList.isPrefixOf str then false
  else if " ".toList.isPrefixOf str then false
  else if verboseList.any (fun v => containsSub str v) then false
  else if "sent".toList.isPrefixOf str then false
  else if "/".toList.isSuffixOf str then false
  else true

/-! The task state and the per-line stdout step
(`State`, task.go lines 22–31; loop body of `processStdout`,
task.go lines 134–155) -/

/-- The progress-state fields of `State` (the raw logs live in `Log`
and are not touched by the matchers). `Progress` is the `float64`
field modelled over `ℚ`. -/
structure State where
  Remain : Int
  Total : Int
  Speed : List Char
  Progress : ℚ
  Filename : List Char
  TransferedBytes : Int
  TransferedPercent : Int
deriving DecidableEq, Repr

/-- Per `NewTask`, the state starts zeroed (task.go line 91). -/
def initState : State :=
  { Remain := 0, Total := 0, Speed := [], Progress := 0, Filename := [],
    TransferedBytes := 0, TransferedPercent := 0 }

/-- The progress value stored on a counter update (task.go lines
139–140): `float64(Total-Remain) / math.Max(float64(Total), 1) * 100`. -/
def progressValue (remain total : Int) : ℚ :=
  ((total - remain : Int) : ℚ) / max ((total : Int) : ℚ) 1 * 100

/-- One iteration of the `processStdout` scan loop on the line
`logStr`, acting on the state fields (the log append is not part of the
progress state). -/
def processStdoutLine (st : State) (logStr : List Char) : State :=
  let st1 :=
    if progressMatch logStr then
      let pr := getTaskProgress (progressExtract logStr)
      { st with Remain := pr.1, Total := pr.2, Progress := progressValue pr.1 pr.2 }
    else st
  let st2 :=
    if speedMatch logStr then
      { st1 with Speed := getTaskSpeed (speedExtractAll logStr 2) }
    else st1
  let st3 :=
    if transferedMatch logStr then
      let tr := getTaskTransfered (transferedExtract logStr)
      { st2 with TransferedBytes := tr.1, TransferedPercent := tr.2 }
    else st2
  if isFilename logStr then { st3 with Filename := logStr } else st3

/-! The stream-drain coordinator (`Run`, task.go lines 58–80)

`Run` executes, in program order:
`go processStdout; go processStderr; wg.Add(2); err = rsync.Run(); wg.Wait(); return err`.
The concurrency is modelled as an interleaved transition system: the
main routine's program counter `pc` walks through its six statements
(0 `go processStdout`, 1 `go processStderr`, 2 `wg.Add(2)`,
3 `rsync.Run()` — the external process's exit wait, modelled from the
spec as an opaque awaited event since `rsync.go` is not among the
sources —, 4 `wg.Wait()`, 5 `return err`; `pc = 6` means the result has
been returned to the caller), while each drain goroutine, once started,
may at any time finish and call its deferred `wg.Done()`.  The
`sync.WaitGroup` semantics is: `Add(2)` increments the counter by two,
`Done` decrements it (panicking if it would drop below zero — possible
here because `Add` runs after the `go` statements), and `Wait` proceeds
only when the counter is zero. -/

structure RunState where
  pc : Nat
  g1Started : Bool
  g2Started : Bool
  g1Done : Bool
  g2Done : Bool
  counter : Int
  panicked : Bool
deriving DecidableEq, Repr

/-- The state at entry of `Run` (after the pipes are obtained). -/
def runInit : RunState :=
  { pc := 0, g1Started := false, g2Started := false, g1Done := false,
    g2Done := false, counter := 0, panicked := false }

/-- One interleaved step of `Run`'s main routine or of a drain
goroutine's completion. -/
inductive RunStep : RunState → RunState → Prop
  | goStdout (s : RunState) : s.pc = 0 → s.panicked = false →
      RunStep s { s with pc := 1, g1Started := true }
  | goStderr (s : RunState) : s.pc = 1 → s.panicked = false →
      RunStep s { s with pc := 2, g2Started := true }
  | wgAdd (s : RunState) : s.pc = 2 → s.panicked = false →
      RunStep s { s with pc := 3, counter := s.counter + 2 }
  | rsyncRun (s : RunState) : s.pc = 3 → s.panicked = false →
      RunStep s { s with pc := 4 }
  | wgWait (s : RunState) : s.pc = 4 → s.panicked = false → s.counter = 0 →
      RunStep s { s with pc := 5 }
  | retErr (s : RunState) : s.pc = 5 → s.panicked = false →
      RunStep s { s with pc := 6 }
  | doneStdout (s : RunState) : s.g1Started = true → s.g1Done = false →
      s.panicked = false → 1 ≤ s.counter →
      RunStep s { s with g1Done := true, counter := s.counter - 1 }
  | doneStdoutPanic (s : RunState) : s.g1Started = true → s.g1Done = false →
      s.panicked = false → s.counter < 1 →
      RunStep s { s with panicked := true }
  | doneStderr (s : RunState) : s.g2Started = true → s.g2Done = false →
      s.panicked = false → 1 ≤ s.counter →
      RunStep s { s with g2Done := true, counter := s.counter - 1 }
  | doneStderrPanic (s : RunState) : s.g2Started = true → s.g2Done = false →
      s.panicked = false → s.counter < 1 →
      RunStep s { s with panicked := true }

/-- States reachable in some interleaving of one `Run` execution. -/
def RunReachable (s : RunState) : Prop :=
  Relation.ReflTransGen RunStep runInit s

/-- Inductive invariant of the coordinator model. -/
def RunInv (s : RunState) : Prop :=
  (1 ≤ s.pc → s.g1Started = true) ∧
  (2 ≤ s.pc → s.g2Started = true) ∧
  (s.pc ≤ 2 → s.counter = 0 ∧ s.g1Done = false ∧ s.g2Done = false) ∧
  (3 ≤ s.pc →
    s.counter = 2 - ((if s.g1Done then 1 else 0) + (if s.g2Done then 1 else 0))) ∧
  (5 ≤ s.pc → s.g1Done = true ∧ s.g2Done = true)

/-! Field projections of the step -/

theorem processStdoutLine_Remain (st : State) (L : List Char) :
    (processStdoutLine st L).Remain =
      if progressMatch L then (getTaskProgress (progressExtract L)).1 else st.Remain := by
  unfold processStdoutLine
  split <;> split <;> split <;> split <;> rfl

theorem processStdoutLine_Total (st : State) (L : List Char) :
    (processStdoutLine st L).Total =
      if progressMatch L then (getTaskProgress (progressExtract L)).2 else st.Total := by
  unfold processStdoutLine
  split <;> split <;> split <;> split <;> rfl

theorem processStdoutLine_Progress (st : State) (L : List Char) :
    (processStdoutLine st L).Progress =
      if progressMatch L then
        progressValue (getTaskProgress (progressExtract L)).1
          (getTaskProgress (progressExtract L)).2
      else st.Progress := by
  unfold processStdoutLine
  split <;> split <;> split <;> split <;> rfl

theorem processStdoutLine_Speed (st : State) (L : List Char) :
    (processStdoutLine st L).Speed =
      if speedMatch L then getTaskSpeed (speedExtractAll L 2) else st.Speed := by
  unfold processStdoutLine
  split <;> split <;> split <;> split <;> rfl

theorem processStdoutLine_TransferedBytes (st : State) (L : List Char) :
    (processStdoutLine st L).TransferedBytes =
      if transferedMatch L then (getTaskTransfered (transferedExtract L)).1
      else st.TransferedBytes := by
  unfold processStdoutLine
  split <;> split <;> split <;> split <;> rfl

theorem processStdoutLine_TransferedPercent (st : State) (L : List Char) :
    (processStdoutLine st L).TransferedPercent =
      if transferedMatch L then (getTaskTransfered (transferedExtract L)).2
      else st.TransferedPercent := by
  unfold processStdoutLine
  split <;> split <;> split <;> split <;> rfl

theorem processStdoutLine_Filename (st : State) (L : List Char) :
    (processStdoutLine st L).Filename =
      if isFilename L then L else st.Filename := by
  unfold processStdoutLine
  split <;> split <;> split <;> split <;> rfl

/-- Two states are equal when all their fields are. -/
theorem State.extEq {a b : State}
    (h1 : a.Remain = b.Remain) (h2 : a.Total = b.Total) (h3 : a.Speed = b.Speed)
    (h4 : a.Progress = b.Progress) (h5 : a.Filename = b.Filename)
    (h6 : a.TransferedBytes = b.TransferedBytes)
    (h7 : a.TransferedPercent = b.TransferedPercent) : a = b := by
  cases a; cases b; simp_all

/-- C9: for every stdout line `L` and every starting state, processing
`L` twice in a row leaves the progress-state fields (remaining, total,
progress, speed, transferred bytes, transferred percent, filename)
equal to their values after processing `L` once — each matcher
overwrites its fields with a value depending only on the line, so
repeated matches of the same line do not accumulate. -/
theorem claim_C9_process_idempotent (st : State) (L : List Char) :
    processStdoutLine (processStdoutLine st L) L = processStdoutLine st L := by
  apply State.extEq <;>
    simp only [processStdoutLine_Remain, processStdoutLine_Total,
      processStdoutLine_Progress, processStdoutLine_Speed,
      processStdoutLine_TransferedBytes, processStdoutLine_TransferedPercent,
      processStdoutLine_Filename] <;>
    split <;> simp_all

/-! The coordinator invariant (claim C3) -/

/-- Each `RunStep` preserves `RunInv`. -/
theorem runInv_step {a b : RunState} (h : RunStep a b) (ha : RunInv a) : RunInv b := by
  obtain ⟨pc, g1s, g2s, g1d, g2d, ctr, pan⟩ := a
  obtain ⟨i1, i2, i3, i4, i5⟩ := ha
  cases h <;>
    cases g1d <;> cases g2d <;>
    simp_all [RunInv] <;> omega

/-- The invariant holds in every reachable state. -/
theorem runInv_of_reachable (s : RunState) (h : RunReachable s) : RunInv s := by
  unfold RunReachable at h
  induction h with
  | refl => refine ⟨?_, ?_, ?_, ?_, ?_⟩ <;> simp [runInit]
  | tail _ hbc ih => exact runInv_step hbc ih

/-- C3: in every interleaving of one task execution, both stream-drain
workers are started before the external process's exit is awaited
(`pc = 3` is the `rsync.Run()` statement, so any state at or past it has
both `go` statements executed), and the exit wait's result is not
consulted — `wg.Wait()` has not been passed, hence the value has not
been returned (`pc ≥ 5`) — until both the stdout drain and the stderr
drain have reported completion through their deferred `wg.Done()`. -/
theorem claim_C3_run_ordering (s : RunState) (h : RunReachable s) :
    (3 ≤ s.pc → s.g1Started = true ∧ s.g2Started = true) ∧
    (5 ≤ s.pc → s.g1Done = true ∧ s.g2Done = true) := by
  obtain ⟨i1, i2, _, _, i5⟩ := runInv_of_reachable s h
  exact ⟨fun h3 => ⟨i1 (by omega), i2 (by omega)⟩, i5⟩

/-- Witness: the completed-run state (result returned, both drains done)
is reachable by an explicit interleaving, and the theorem's conclusion
holds there. -/
theorem claim_C3_run_ordering_witness :
    (3 ≤ (RunState.mk 6 true true true true 0 false).pc →
      (RunState.mk 6 true true true true 0 false).g1Started = true ∧
        (RunState.mk 6 true true true true 0 false).g2Started = true) ∧
    (5 ≤ (RunState.mk 6 true true true true 0 false).pc →
      (RunState.mk 6 true true true true 0 false).g1Done = true ∧
        (RunState.mk 6 true true true true 0 false).g2Done = true) := by
  have t1 : Relation.ReflTransGen RunStep runInit (RunState.mk 1 true false false false 0 false) :=
    Relation.ReflTransGen.single (RunStep.goStdout runInit rfl rfl)
  have t2 := t1.tail (RunStep.goStderr (RunState.mk 1 true false false false 0 false) rfl rfl)
  have t3 := t2.tail (RunStep.wgAdd (RunState.mk 2 true true false false 0 false) rfl rfl)
  have t4 := t3.tail (RunStep.rsyncRun (RunState.mk 3 true true false false 2 false) rfl rfl)
  have t5 := t4.tail
    (RunStep.doneStdout (RunState.mk 4 true true false false 2 false) rfl rfl rfl (by decide))
  have t6 := t5.tail
    (RunStep.doneStderr (RunState.mk 4 true true true false 1 false) rfl rfl rfl (by decide))
  have t7 := t6.tail
    (RunStep.wgWait (RunState.mk 4 true true true true 0 false) rfl rfl rfl)
  have t8 := t7.tail (RunStep.retErr (RunState.mk 5 true true true true 0 false) rfl rfl)
  exact claim_C3_run_ordering (RunState.mk 6 true true true true 0 false) t8

/-! Claim C1 -/

/-- C1 (amended): whenever the progress counter matcher fires on a
stdout line, the stored progress value is
`100 · (total − remaining) / max(total, 1)` — a percentage, lying in
`[0, 100]` whenever `0 ≤ remaining ≤ total`, not a fraction in `[0, 1]`;
for remaining=999, total=9999 it equals `100000/1111 ≈ 90.01` (not
`0.9`), and for total=0 no division by zero occurs because the
denominator `max(total, 1)` is `1`. -/
theorem claim_C1_progress_formula (st : State) (L : List Char)
    (h : progressMatch L = true) :
    (processStdoutLine st L).Progress =
      progressValue (getTaskProgress (progressExtract L)).1
        (getTaskProgress (progressExtract L)).2 ∧
    (∀ t : Int, 0 < max ((t : Int) : ℚ) 1) ∧
    max (((0 : Int)) : ℚ) 1 = 1 ∧
    (∀ r t : Int, 0 ≤ r → r ≤ t → 0 ≤ progressValue r t ∧ progressValue r t ≤ 100) ∧
    progressValue 999 9999 = 100000 / 1111 := by
  refine ⟨?_, ?_, ?_, ?_, ?_⟩
  · rw [processStdoutLine_Progress, if_pos h]
  · intro t
    exact lt_max_of_lt_right one_pos
  · norm_num
  · intro r t h0 hrt
    unfold progressValue
    have hden : (0:ℚ) < max ((t : Int) : ℚ) 1 := lt_max_of_lt_right one_pos
    have hr : (0:ℚ) ≤ ((r : Int) : ℚ) := by exact_mod_cast h0
    have htr : ((r : Int) : ℚ) ≤ ((t : Int) : ℚ) := by exact_mod_cast hrt
    constructor
    · apply mul_nonneg _ (by norm_num)
      apply div_nonneg _ (le_of_lt hden)
      push_cast
      linarith
    · have hnum : ((t - r : Int) : ℚ) ≤ max ((t : Int) : ℚ) 1 := by
        refine le_trans ?_ (le_max_left _ _)
        push_cast
        linarith
      calc ((t - r : Int) : ℚ) / max ((t : Int) : ℚ) 1 * 100 ≤ 1 * 100 := by
            apply mul_le_mul_of_nonneg_right ((div_le_one hden).mpr hnum) (by norm_num)
        _ = 100 := by norm_num
  · unfold progressValue
    rw [max_eq_left (by norm_num : (1:ℚ) ≤ ((9999 : Int) : ℚ))]
    norm_num

/-- Witness for C1 at the line `"(xfr#9, to-chk=999/9999)"`. -/
theorem claim_C1_progress_formula_witness :
    (processStdoutLine initState "(xfr#9, to-chk=999/9999)".toList).Progress =
      progressValue
        (getTaskProgress (progressExtract "(xfr#9, to-chk=999/9999)".toList)).1
        (getTaskProgress (progressExtract "(xfr#9, to-chk=999/9999)".toList)).2 :=
  (claim_C1_progress_formula initState "(xfr#9, to-chk=999/9999)".toList (by decide)).1

/-- C1 counterexample: on the stdout line `"(xfr#9, to-chk=999/9999)"`
the counter matcher fires with remaining 999 and total 9999, and the
stored progress value is `100·9000/9999 = 100000/1111 ≈ 90.01`: it is
neither `0.9` nor in `[0, 1]` — the code multiplies the fraction by
100 (`maxPercents`), storing a percentage. -/
theorem claim_C1_counterexample :
    (processStdoutLine initState "(xfr#9, to-chk=999/9999)".toList).Progress ≠ 9 / 10 ∧
    ¬ ((processStdoutLine initState "(xfr#9, to-chk=999/9999)".toList).Progress ≤ 1) := by
  have he : (processStdoutLine initState "(xfr#9, to-chk=999/9999)".toList).Progress
      = progressValue 999 9999 := by
    rw [processStdoutLine_Progress]
    have h1 : progressMatch "(xfr#9, to-chk=999/9999)".toList = true := by decide
    have h2 : getTaskProgress (progressExtract "(xfr#9, to-chk=999/9999)".toList)
        = (999, 9999) := by decide
    rw [if_pos h1, h2]
  have hv : progressValue 999 9999 = 100000 / 1111 := by
    unfold progressValue
    rw [max_eq_left (by norm_num : (1:ℚ) ≤ ((9999 : Int) : ℚ))]
    norm_num
  rw [he, hv]
  norm_num

/-! Claim C2 -/

/-- C2 (amended): the transferred-size extractor decodes a size token by
stripping a case-sensitive unit suffix among {K, KB, M, MB, G, GB, T,
TB} (trying units in order, KB before K) and scaling by powers of 1024;
`"123,456"` with no unit decodes to 123456 bytes and `"21.90G"` to
23514945945 bytes, but `"87.65kB"` decodes to 0 bytes — its lowercase
`k` matches no case-sensitive unit, and the residual text `"87.65kB"`
then fails numeric parsing, which the code degrades to zero — and from
the line `"123,456 78%  87.65kB/s    0:00:59 (xfr#9, to-chk=999/9999)"`
it yields transferred bytes 123456 and transferred percent 78. -/
theorem claim_C2_transfered :
    getTaskTransfered "123,456 78".toList = (123456, 78) ∧
    getTaskTransfered "21.90G  98".toList = (23514945945, 98) ∧
    getTaskTransfered "87.65kB 50".toList = (0, 50) ∧
    transferedExtract
        "123,456 78%  87.65kB/s    0:00:59 (xfr#9, to-chk=999/9999)".toList =
      "123,456 78".toList ∧
    getTaskTransfered (transferedExtract
        "123,456 78%  87.65kB/s    0:00:59 (xfr#9, to-chk=999/9999)".toList) =
      (123456, 78) :=
  ⟨by decide, by decide, by decide, by decide, by decide⟩

/-- C2 counterexample: the claim's example `"87.65kB" → 89753` bytes is
false on the code: the case-sensitive unit list contains only uppercase
suffixes, so `"87.65kB"` keeps its `kB` text, fails `ParseFloat`, and
decodes to 0 bytes, not 89753. -/
theorem claim_C2_counterexample :
    (getTaskTransfered "87.65kB 50".toList).1 = 0 ∧ (0 : Int) ≠ 89753 :=
  ⟨by decide, by decide⟩

/-! Claim C4 -/

/-- C4 (amended): after an update performed by the transferred matcher,
the stored transferred byte count is ≥ 0 **whenever the decoded size
number is ≥ 0** (its sign follows the parsed number: a token parsing to
a negative value is stored negatively), and the stored transferred
percent equals the `Atoi` of the capture's last whitespace token and
lies in `[0, 100]` **whenever that token decodes into `[0, 100]`** (the
code imposes no clamping of its own). -/
theorem claim_C4_transfered_ranges (st : State) (L : List Char)
    (h : transferedMatch L = true) :
    (0 ≤ (transferedMantissa (transferedExtract L)).1 →
      0 ≤ (processStdoutLine st L).TransferedBytes) ∧
    (0 ≤ goAtoi ((splitOnChar ' ' (transferedExtract L)).getD
        ((splitOnChar ' ' (transferedExtract L)).length - 1) []) →
      goAtoi ((splitOnChar ' ' (transferedExtract L)).getD
        ((splitOnChar ' ' (transferedExtract L)).length - 1) []) ≤ 100 →
      0 ≤ (processStdoutLine st L).TransferedPercent ∧
        (processStdoutLine st L).TransferedPercent ≤ 100) := by
  have hb := processStdoutLine_TransferedBytes st L
  have hp := processStdoutLine_TransferedPercent st L
  rw [if_pos h] at hb hp
  have hunf : getTaskTransfered (transferedExtract L) =
      if (splitOnChar ' ' (transferedExtract L)).length < 2 then (0, 0)
      else
        (((transferedMantissa (transferedExtract L)).1 *
            (unitScale (transferedUnit (transferedExtract L)) : Int)).tdiv
          ((transferedMantissa (transferedExtract L)).2 : Int),
         goAtoi ((splitOnChar ' ' (transferedExtract L)).getD
           ((splitOnChar ' ' (transferedExtract L)).length - 1) [])) := rfl
  rw [hunf] at hb hp
  constructor
  · intro hm
    rw [hb]
    split
    · exact le_refl 0
    · exact Int.tdiv_nonneg (mul_nonneg hm (Int.natCast_nonneg _)) (Int.natCast_nonneg _)
  · intro h0 h100
    rw [hp]
    split
    · exact ⟨le_refl 0, by norm_num⟩
    · exact ⟨h0, h100⟩

/-- Witness for C4 at the line
`"123,456 78%  87.65kB/s    0:00:59 (xfr#9, to-chk=999/9999)"`. -/
theorem claim_C4_transfered_ranges_witness :
    0 ≤ (processStdoutLine initState
        "123,456 78%  87.65kB/s    0:00:59 (xfr#9, to-chk=999/9999)".toList).TransferedBytes ∧
    0 ≤ (processStdoutLine initState
        "123,456 78%  87.65kB/s    0:00:59 (xfr#9, to-chk=999/9999)".toList).TransferedPercent ∧
    (processStdoutLine initState
        "123,456 78%  87.65kB/s    0:00:59 (xfr#9, to-chk=999/9999)".toList).TransferedPercent ≤ 100 := by
  have hh := claim_C4_transfered_ranges initState
    "123,456 78%  87.65kB/s    0:00:59 (xfr#9, to-chk=999/9999)".toList (by decide)
  have h1 := hh.1 (by decide)
  have h2 := hh.2 (by decide) (by decide)
  exact ⟨h1, h2.1, h2.2⟩

/-- C4 counterexample: the invariant of the original claim fails on
lines the matcher accepts: `"0 200%"` stores percent 200 ∉ [0,100], and
`"-5K 10%"` stores −5120 < 0 bytes. -/
theorem claim_C4_counterexample :
    (processStdoutLine initState "0 200%".toList).TransferedPercent = 200 ∧
    ¬ ((processStdoutLine initState "0 200%".toList).TransferedPercent ≤ 100) ∧
    (processStdoutLine initState "-5K 10%".toList).TransferedBytes = -5120 ∧
    ¬ (0 ≤ (processStdoutLine initState "-5K 10%".toList).TransferedBytes) :=
  ⟨by decide, by decide, by decide, by decide⟩

/-! Claim C8 -/

/-- C8: on the line
`"999,999 99%  999.99kB/s    0:00:59 (xfr#9, to-chk=999/9999)"` the
speed matcher yields exactly `"999.99kB/s"` (`data[0][0]`, the text of
its first match), and on any line where the speed pattern does not
match, the stored speed field is left untouched. -/
theorem claim_C8_speed (st : State) (L : List Char) (h : speedMatch L = false) :
    getTaskSpeed (speedExtractAll
        "999,999 99%  999.99kB/s    0:00:59 (xfr#9, to-chk=999/9999)".toList 2) =
      "999.99kB/s".toList ∧
    (processStdoutLine st L).Speed = st.Speed := by
  refine ⟨by decide, ?_⟩
  rw [processStdoutLine_Speed, if_neg (by simp [h])]

/-- Witness for C8 at the non-matching line `"abc"`. -/
theorem claim_C8_speed_witness :
    getTaskSpeed (speedExtractAll
        "999,999 99%  999.99kB/s    0:00:59 (xfr#9, to-chk=999/9999)".toList 2) =
      "999.99kB/s".toList ∧
    (processStdoutLine initState "abc".toList).Speed = initState.Speed :=
  claim_C8_speed initState "abc".toList (by decide)

/-! Claim C10 -/

/-- C10: the counter pattern `\(.+-chk=(\d+.\d+)` allows any single
character between the two digit runs, not only `/`: the stdout line
`"(xfr#9, to-chk=12.34)"` matches with capture `"12.34"`, whose split
on `/` yields a single part (< 2), so the stored remaining and total
counters are both reset to 0 and the derived progress value to 0, even
though no `<remaining>/<total>` pair was present. -/
theorem claim_C10_counter_dot :
    progressMatch "(xfr#9, to-chk=12.34)".toList = true ∧
    progressExtract "(xfr#9, to-chk=12.34)".toList = "12.34".toList ∧
    (splitOnChar '/' "12.34".toList).length < 2 ∧
    (processStdoutLine initState "(xfr#9, to-chk=12.34)".toList).Remain = 0 ∧
    (processStdoutLine initState "(xfr#9, to-chk=12.34)".toList).Total = 0 ∧
    (processStdoutLine initState "(xfr#9, to-chk=12.34)".toList).Progress = 0 := by
  refine ⟨by decide, by decide, by decide, by decide, by decide, ?_⟩
  rw [processStdoutLine_Progress]
  have h1 : progressMatch "(xfr#9, to-chk=12.34)".toList = true := by decide
  have h2 : getTaskProgress (progressExtract "(xfr#9, to-chk=12.34)".toList) = (0, 0) := by
    decide
  rw [if_pos h1, h2]
  unfold progressValue
  norm_num

/-! Claim C6 -/

/-- Splitting on a separator absent from the first part peels it off. -/
theorem splitOnChar_append (sep : Char) (s1 s2 : List Char) (h : sep ∉ s1) :
    splitOnChar sep (s1 ++ sep :: s2) = s1 :: splitOnChar sep s2 := by
  induction s1 with
  | nil => simp [splitOnChar]
  | cons c t ih =>
    have hc : ¬ c = sep := fun he => h (by simp [he])
    have ht : sep ∉ t := fun he => h (by simp [he])
    simp only [List.cons_append, splitOnChar, if_neg hc, List.append_eq, ih ht]

/-- Splitting a separator-free string yields it unchanged. -/
theorem splitOnChar_no_sep (sep : Char) (s : List Char) (h : sep ∉ s) :
    splitOnChar sep s = [s] := by
  induction s with
  | nil => rfl
  | cons c t ih =>
    have hc : ¬ c = sep := fun he => h (by simp [he])
    have ht : sep ∉ t := fun he => h (by simp [he])
    simp only [splitOnChar, if_neg hc, ih ht]

/-- A digit character is not a separator such as `/`. -/
theorem not_mem_of_all_digit (s : List Char) (hd : s.all Char.isDigit = true)
    (c : Char) (hc : Char.isDigit c = false) : c ∉ s := by
  intro hmem
  have := List.all_eq_true.mp hd c hmem
  rw [this] at hc
  exact Bool.true_eq_false.mp hc

/-- Go `strconv.Atoi` on a nonempty in-range digit string is its decimal
value. -/
theorem goAtoi_digits (s : List Char) (hne : s ≠ []) (hd : s.all Char.isDigit = true)
    (hle : (natOfDigits s : Int) ≤ int64Max) : goAtoi s = natOfDigits s := by
  obtain ⟨c, t, rfl⟩ : ∃ c t, s = c :: t := by
    cases s with
    | nil => exact absurd rfl hne
    | cons c t => exact ⟨c, t, rfl⟩
  have hc : Char.isDigit c = true := (List.all_eq_true.mp hd c (by simp))
  have hplus : ¬ (c :: t).head? = some '+' := by
    simp only [List.head?_cons, Option.some.injEq]
    intro he
    rw [he] at hc
    exact absurd hc (by decide)
  have hminus : ¬ (c :: t).head? = some '-' := by
    simp only [List.head?_cons, Option.some.injEq]
    intro he
    rw [he] at hc
    exact absurd hc (by decide)
  unfold goAtoi goAtoiCore
  rw [if_neg hplus, if_neg hminus]
  simp only [if_neg (List.cons_ne_nil c t), if_pos hd, one_mul]
  have h0 : int64Min ≤ (natOfDigits (c :: t) : Int) :=
    le_trans (by decide) (Int.natCast_nonneg _)
  simp [clampInt64, min_eq_right hle, max_eq_right h0]

/-- Unfolding of `getTaskProgress` (the `let` zeta-reduced). -/
theorem getTaskProgress_eq (s : List Char) :
    getTaskProgress s =
      if (splitOnChar '/' s).length < 2 then (0, 0)
      else (goAtoi ((splitOnChar '/' s).getD 0 []),
            goAtoi ((splitOnChar '/' s).getD 1 [])) := rfl

/-- C6 (amended): for every counter capture `"<remaining>/<total>"`
whose halves are digit strings with values below 2⁶³, `getTaskProgress`
returns exactly those two integers (out-of-range halves are clamped to
the int64 bound because the range error of `Atoi` is discarded); e.g.
`"999/9999"` gives `(999, 9999)`.  A capture whose split on `/` yields
fewer than two parts returns `(0, 0)`, and a non-numeric half (a `/`
-free token `Atoi` rejects) is treated as 0. -/
theorem claim_C6_getTaskProgress (s1 s2 s : List Char) :
    (s1 ≠ [] → s2 ≠ [] → s1.all Char.isDigit = true → s2.all Char.isDigit = true →
      (natOfDigits s1 : Int) ≤ int64Max → (natOfDigits s2 : Int) ≤ int64Max →
      getTaskProgress (s1 ++ '/' :: s2) =
        ((natOfDigits s1 : Int), (natOfDigits s2 : Int))) ∧
    getTaskProgress "999/9999".toList = (999, 9999) ∧
    ((splitOnChar '/' s).length < 2 → getTaskProgress s = (0, 0)) ∧
    (goAtoiCore s1 = none → '/' ∉ s1 → '/' ∉ s2 →
      getTaskProgress (s1 ++ '/' :: s2) = (0, goAtoi s2)) := by
  refine ⟨?_, by decide, ?_, ?_⟩
  · intro hne1 hne2 hd1 hd2 hle1 hle2
    have hns1 : '/' ∉ s1 := not_mem_of_all_digit s1 hd1 '/' (by decide)
    have hns2 : '/' ∉ s2 := not_mem_of_all_digit s2 hd2 '/' (by decide)
    rw [getTaskProgress_eq, splitOnChar_append _ _ _ hns1, splitOnChar_no_sep _ _ hns2]
    simp only [List.length_cons, List.length_singleton]
    rw [if_neg (by omega)]
    simp only [List.getD_cons_zero, List.getD_cons_succ]
    rw [goAtoi_digits s1 hne1 hd1 hle1, goAtoi_digits s2 hne2 hd2 hle2]
  · intro hlen
    rw [getTaskProgress_eq, if_pos hlen]
  · intro hcore hns1 hns2
    rw [getTaskProgress_eq, splitOnChar_append _ _ _ hns1, splitOnChar_no_sep _ _ hns2]
    simp only [List.length_cons, List.length_singleton]
    rw [if_neg (by omega)]
    simp only [List.getD_cons_zero, List.getD_cons_succ]
    simp [goAtoi, hcore]

/-- Witness for C6 at `"999" / "9999"`. -/
theorem claim_C6_getTaskProgress_witness :
    getTaskProgress ("999".toList ++ '/' :: "9999".toList) =
      ((natOfDigits "999".toList : Int), (natOfDigits "9999".toList : Int)) :=
  (claim_C6_getTaskProgress "999".toList "9999".toList []).1
    (by decide) (by decide) (by decide) (by decide) (by decide) (by decide)

/-- C6 counterexample: the capture `"1/99999999999999999999"` has two
numeric halves, yet `getTaskProgress` returns the int64-clamped
`9223372036854775807` for the second, not the integer itself: `Atoi`'s
range error is discarded and its clamped value kept. -/
theorem claim_C6_counterexample :
    getTaskProgress "1/99999999999999999999".toList = (1, 9223372036854775807) ∧
    (9223372036854775807 : Int) ≠ 99999999999999999999 :=
  ⟨by decide, by decide⟩

/-! Claim C7 -/

/-- A one-character list is a prefix exactly of the lists with that
head. -/
theorem singleton_isPrefixOf_iff (c : Char) (s : List Char) :
    [c].isPrefixOf s = true ↔ s.head? = some c := by
  cases s with
  | nil => simp [List.isPrefixOf]
  | cons b t =>
    simp only [List.isPrefixOf, Bool.and_eq_true, beq_iff_eq, List.head?_cons,
      Option.some.injEq]
    constructor
    · rintro ⟨h, -⟩
      exact h.symm
    · intro h
      exact ⟨h.symm, by simp [List.isPrefixOf]⟩

/-- A prefix starting with `c` forces the head to be `c`. -/
theorem isPrefixOf_cons_head {c : Char} {p s : List Char}
    (h : (c :: p).isPrefixOf s = true) : s.head? = some c := by
  cases s with
  | nil => simp [List.isPrefixOf] at h
  | cons b t =>
    simp only [List.isPrefixOf, Bool.and_eq_true, beq_iff_eq] at h
    simp [h.1]

/-- The trailing slash is a suffix of any slash-terminated line. -/
theorem slash_isSuffixOf_append (t : List Char) :
    "/".toList.isSuffixOf (t ++ "/".toList) = true := by
  show ['/'].isSuffixOf (t ++ ['/']) = true
  simp [List.isSuffixOf, List.isPrefixOf]

/-- The classifier `isFilename` accepts exactly the lines satisfying the claim's five
conditions (the redundant six-space check of the source is subsumed by
the single-space check). -/
theorem isFilename_iff (s : List Char) :
    isFilename s = true ↔
      (s ≠ [] ∧ s.head? ≠ some ' ' ∧ (∀ v ∈ verboseList, containsSub s v = false) ∧
        "sent".toList.isPrefixOf s = false ∧ "/".toList.isSuffixOf s = false) := by
  unfold isFilename
  split_ifs with h1 h2 h3 h4 h5 h6
  · exact iff_of_false (by decide) (fun hr => hr.1 h1)
  · have hh : s.head? = some ' ' := isPrefixOf_cons_head (c := ' ') (p := "     ".toList) h2
    exact iff_of_false (by decide) (fun hr => hr.2.1 hh)
  · have hh : s.head? = some ' ' := (singleton_isPrefixOf_iff ' ' s).mp h3
    exact iff_of_false (by decide) (fun hr => hr.2.1 hh)
  · simp only [List.any_eq_true] at h4
    obtain ⟨v, hv, hcv⟩ := h4
    refine iff_of_false (by decide) (fun hr => ?_)
    rw [hr.2.2.1 v hv] at hcv
    exact Bool.false_eq_true.mp hcv
  · refine iff_of_false (by decide) (fun hr => ?_)
    rw [hr.2.2.2.1] at h5
    exact Bool.false_eq_true.mp h5
  · refine iff_of_false (by decide) (fun hr => ?_)
    rw [hr.2.2.2.2] at h6
    exact Bool.false_eq_true.mp h6
  · have hh : ¬ s.head? = some ' ' := fun he => h3 ((singleton_isPrefixOf_iff ' ' s).mpr he)
    have hall : ∀ v ∈ verboseList, containsSub s v = false := by
      intro v hv
      by_contra hcv
      exact h4 (List.any_eq_true.mpr ⟨v, hv, Bool.of_not_eq_false hcv⟩)
    exact iff_of_true rfl
      ⟨h1, hh, hall, Bool.eq_false_iff.mpr h5, Bool.eq_false_iff.mpr h6⟩

/-- C7: the filename classifier accepts a line iff it is non-empty,
does not start with a leading space (a single leading space already
disqualifies), contains none of the fixed denylist of status
substrings, does not start with `"sent"`, and does not end with `"/"`;
`"some/path/file.txt"` is accepted, `"sending incremental file list"`
is rejected, any line with one or more leading spaces is rejected, and
any line ending in `"/"` is rejected. -/
theorem claim_C7_isFilename (s : List Char) :
    (isFilename s = true ↔
      (s ≠ [] ∧ s.head? ≠ some ' ' ∧ (∀ v ∈ verboseList, containsSub s v = false) ∧
        "sent".toList.isPrefixOf s = false ∧ "/".toList.isSuffixOf s = false)) ∧
    isFilename "some/path/file.txt".toList = true ∧
    isFilename "sending incremental file list".toList = false ∧
    (∀ t : List Char, isFilename (' ' :: t) = false) ∧
    (∀ t : List Char, isFilename (t ++ "/".toList) = false) := by
  refine ⟨isFilename_iff s, by decide, by decide, ?_, ?_⟩
  · intro t
    cases hx : isFilename (' ' :: t) with
    | false => rfl
    | true => exact absurd rfl ((isFilename_iff (' ' :: t)).mp hx).2.1
  · intro t
    cases hx : isFilename (t ++ "/".toList) with
    | false => rfl
    | true =>
      have := ((isFilename_iff (t ++ "/".toList)).mp hx).2.2.2.2
      rw [slash_isSuffixOf_append t] at this
      exact absurd this (by decide)

/-- Witness for C7: the acceptance of `"some/path/file.txt"` obtained
through the classifier equivalence. -/
theorem claim_C7_isFilename_witness :
    isFilename "some/path/file.txt".toList = true :=
  (claim_C7_isFilename "some/path/file.txt".toList).1.mpr (by decide)

/-! Claim C5 -/

/-- Lemma: `IndexAny` finds the first delimiter after a clean prefix. -/
theorem indexAny_append (p : Char → Bool) (pre : List Char) (d : Char)
    (rest : List Char) (hpre : ∀ c ∈ pre, p c = false) (hd : p d = true) :
    indexAny p (pre ++ d :: rest) = some pre.length := by
  induction pre with
  | nil => simp [indexAny, hd]
  | cons c t ih =>
    have hc : p c = false := hpre c (by simp)
    have ht : ∀ x ∈ t, p x = false := fun x hx => hpre x (by simp [hx])
    simp [indexAny, hc, ih ht]

/-- Lemma: `IndexAny` misses on delimiter-free input. -/
theorem indexAny_none (p : Char → Bool) (s : List Char)
    (h : ∀ c ∈ s, p c = false) : indexAny p s = none := by
  induction s with
  | nil => rfl
  | cons c t ih =>
    have hc : p c = false := h c (by simp)
    have ht : ∀ x ∈ t, p x = false := fun x hx => h x (by simp [hx])
    simp [indexAny, hc, ih ht]

/-- The byte at the first delimiter's index. -/
theorem getD_append_length (pre : List Char) (d : Char) (rest : List Char)
    (dflt : Char) : (pre ++ d :: rest).getD pre.length dflt = d := by
  induction pre with
  | nil => rfl
  | cons c t ih => simpa using ih

/-- The byte right after the first delimiter. -/
theorem getD_append_length_succ (pre : List Char) (d : Char) (rest : List Char)
    (dflt : Char) :
    (pre ++ d :: rest).getD (pre.length + 1) dflt = rest.getD 0 dflt := by
  induction pre with
  | nil => rfl
  | cons c t ih => simpa using ih

/-- C5 (amended): for every input byte sequence and end-of-input flag,
the line splitter yields the bytes before the first `\n` and consumes
through that `\n`; if the first delimiter is `\r` it yields the bytes
before it, consumes the `\r` and additionally one immediately following
`\n` (so `\r\n` is one terminator while a bare `\r` alone ends a line);
with no delimiter it yields all remaining bytes as a final line when
input is exhausted **and at least one byte remains** (with no bytes
remaining at end of input it produces no line, signalling termination),
and otherwise requests more data producing no line. -/
theorem claim_C5_scanner (data : List Char) (atEOF : Bool) :
    (∀ pre rest : List Char, data = pre ++ '\n' :: rest →
      (∀ c ∈ pre, isDelim c = false) →
      scanProgressLines data atEOF = (pre.length + 1, some pre)) ∧
    (∀ pre rest : List Char, data = pre ++ '\r' :: rest →
      (∀ c ∈ pre, isDelim c = false) →
      scanProgressLines data atEOF =
        (pre.length + 1 + (if rest.head? = some '\n' then 1 else 0), some pre)) ∧
    ((∀ c ∈ data, isDelim c = false) → atEOF = true → data ≠ [] →
      scanProgressLines data atEOF = (data.length, some data)) ∧
    ((∀ c ∈ data, isDelim c = false) → atEOF = false →
      scanProgressLines data atEOF = (0, none)) := by
  refine ⟨?_, ?_, ?_, ?_⟩
  · rintro pre rest rfl hpre
    have hidx : indexAny isDelim (pre ++ '\n' :: rest) = some pre.length :=
      indexAny_append _ _ _ _ hpre (by decide)
    unfold scanProgressLines
    rw [if_neg (by simp), hidx]
    dsimp only
    rw [getD_append_length, if_pos rfl, List.take_left]
  · rintro pre rest rfl hpre
    have hidx : indexAny isDelim (pre ++ '\r' :: rest) = some pre.length :=
      indexAny_append _ _ _ _ hpre (by decide)
    unfold scanProgressLines
    rw [if_neg (by simp), hidx]
    dsimp only
    rw [getD_append_length, if_neg (by decide), getD_append_length_succ,
      List.take_left]
    have hlen : (pre ++ '\r' :: rest).length = pre.length + 1 + rest.length := by
      simp only [List.length_append, List.length_cons]
      omega
    rw [hlen]
    cases rest with
    | nil =>
      simp only [List.length_nil, Nat.add_zero]
      rw [if_neg (fun hand => absurd hand.1 (by omega))]
      simp
    | cons r rt =>
      by_cases hr : r = '\n'
      · subst hr
        rw [if_pos ⟨by simp only [List.length_cons]; omega, rfl⟩]
        refine Prod.ext ?_ rfl
        have hone : (if ('\n' :: rt).head? = some '\n' then 1 else 0) = 1 := by simp
        rw [hone]
      · rw [if_neg (fun hand => hr (by simpa using hand.2))]
        simp only [List.head?_cons]
        rw [if_neg (by simpa using hr)]
  · intro hclean hT hne
    have hidx : indexAny isDelim data = none := indexAny_none _ _ hclean
    simp [scanProgressLines, hidx, hT, hne]
  · intro hclean hF
    have hidx : indexAny isDelim data = none := indexAny_none _ _ hclean
    simp [scanProgressLines, hidx, hF]

/-- Witness for C5 at `"ab\r\nc"`, not at end of input: the `\r\n` pair
is consumed as one terminator around the line `"ab"`. -/
theorem claim_C5_scanner_witness :
    scanProgressLines "ab\r\nc".toList false =
      ("ab".toList.length + 1 +
        (if ("\nc".toList).head? = some '\n' then 1 else 0), some "ab".toList) :=
  (claim_C5_scanner "ab\r\nc".toList false).2.1 "ab".toList "\nc".toList
    (by decide) (by decide)

/-- C5 counterexample: at end of input with no bytes remaining there is
no delimiter and input is exhausted, yet the splitter does not yield
the (empty) remaining bytes as a final line — it returns no token at
all, terminating the scan. -/
theorem claim_C5_counterexample :
    scanProgressLines [] true ≠ (List.length ([] : List Char), some ([] : List Char)) := by
  decide

end Grsync
